import Mathlib

/-!
Shallow embedding of the `EventStore` class of `terminals-core`
(`src/core/EventStore.ts`).  Events are modelled by `BEvent`, stores by
`Store`; the JavaScript `Map<number, S>` holding checkpoints is modelled as an
insertion-ordered association list with `cpSet` mirroring `Map.set` and a
filter mirroring deletion during iteration.  `append` takes the fully
constructed event: the source generates `id` and `timestamp` from the
environment inside `append`, and only the resulting event value matters to the
store's semantics.  JavaScript array `slice(a, b)` becomes `take`/`drop`,
`reduce` becomes `List.foldl`, and the numeric cursor (which can be `-1`)
is an `Int`.
-/

namespace Terminals

set_option maxRecDepth 100000

/-- Events, after the source's `BaseEvent` (`id`, `timestamp`, `type`) plus a
tag-specific payload. -/
structure BEvent (P : Type) where
  id : String
  timestamp : Int
  type : String
  payload : P
  deriving DecidableEq

/-- Constructor options (`EventStoreOptions`), each field optional as in the
source; `none` models an absent key. -/
structure StoreOptions where
  maxEvents : Option Nat := none
  enableCheckpoints : Option Bool := none
  checkpointInterval : Option Nat := none
  deriving DecidableEq

/-- The store.  `maxEvents`, `enableCheckpoints` and `checkpointInterval` hold
the values of `this.options` after the constructor merged in the defaults;
a `maxEvents` or `checkpointInterval` of `0` models the falsy values that
disable the corresponding feature, exactly as `0` does in the source's
truthiness tests. -/
structure Store (P S M : Type) where
  events : List (BEvent P)
  index : Int
  checkpoints : List (Int × S)
  metadata : List (String × M)
  initialState : S
  reducer : S → BEvent P → S
  maxEvents : Nat
  enableCheckpoints : Bool
  checkpointInterval : Nat

/-- Persisted form produced by `snapshot()`. -/
structure StoreSnapshot (P S M : Type) where
  events : List (BEvent P)
  index : Int
  state : S
  timestamp : Int
  metadata : Option (List (String × M))

/-- `Map.set`: replace the value when the key is present (keeping its place in
insertion order), otherwise add the pair at the end. -/
def cpSet {S : Type} (m : List (Int × S)) (k : Int) (v : S) : List (Int × S) :=
  if m.any (fun q => q.1 == k) then
    m.map (fun q => if q.1 == k then (k, v) else q)
  else
    m ++ [(k, v)]

/-- The constructor: empty log, cursor `-1`, a `-1` checkpoint only when the
RAW options already have `enableCheckpoints` truthy (the source consults
`options.enableCheckpoints` before the defaults are merged in), then the
defaulted options. -/
def new {P S M : Type} (initialState : S) (reducer : S → BEvent P → S)
    (opts : StoreOptions) : Store P S M :=
  { events := []
    index := -1
    checkpoints := if opts.enableCheckpoints.getD false then [(-1, initialState)] else []
    metadata := []
    initialState := initialState
    reducer := reducer
    maxEvents := opts.maxEvents.getD 10000
    enableCheckpoints := opts.enableCheckpoints.getD true
    checkpointInterval := opts.checkpointInterval.getD 100 }

variable {P S M : Type}

/-- Loop body of the nearest-checkpoint scan in `projectAtIndex`: keep the
entry when its position is `<= targetIndex` and greater than the best so
far. -/
def ckStep (targetIndex : Int) (acc q : Int × S) : Int × S :=
  if q.1 ≤ targetIndex ∧ acc.1 < q.1 then q else acc

/-- The scan inside `projectAtIndex` locating the nearest checkpoint at or
below the target: fold over the map's entries keeping the greatest position
`<= targetIndex`, starting from `(-1, initialState)`. -/
def nearestCk (init : S) (targetIndex : Int) (cps : List (Int × S)) : Int × S :=
  cps.foldl (ckStep targetIndex) ((-1 : Int), init)

/-- `projectAtIndex(targetIndex)`: initial state below `0`; otherwise fold the
reducer over the log slice after the nearest checkpoint (or from the start
when checkpointing is disabled). -/
def projectAtIndex (s : Store P S M) (targetIndex : Int) : S :=
  if targetIndex < 0 then s.initialState
  else if s.enableCheckpoints then
    let best := nearestCk s.initialState targetIndex s.checkpoints
    ((s.events.take (targetIndex + 1).toNat).drop (best.1 + 1).toNat).foldl
      s.reducer best.2
  else
    (s.events.take (targetIndex + 1).toNat).foldl s.reducer s.initialState

/-- `project()` projects at the cursor. -/
def project (s : Store P S M) : S :=
  projectAtIndex s s.index

/-- First phase of `append`: when the cursor sits before the last event, drop
the events after it and delete every checkpoint positioned after it. -/
def truncateFuture (s : Store P S M) : Store P S M :=
  if s.index < (s.events.length : Int) - 1 then
    { s with
      events := s.events.take (s.index + 1).toNat
      checkpoints := s.checkpoints.filter (fun q => !(s.index < q.1)) }
  else s

/-- Second phase of `append`: when `maxEvents` is truthy and the log has
reached it, materialize the state at the midpoint, replace all checkpoints by
a single one at position `0` holding it (when checkpointing is enabled), keep
only the tail from the midpoint on and point the cursor at its end. -/
def enforceMaxEvents (s : Store P S M) : Store P S M :=
  if s.maxEvents ≠ 0 ∧ s.maxEvents ≤ s.events.length then
    let midpoint := s.events.length / 2
    let s1 := if s.enableCheckpoints then
        { s with checkpoints := [((0 : Int), projectAtIndex s (midpoint : Int))] }
      else s
    { s1 with
      events := s1.events.drop midpoint
      index := ((s1.events.drop midpoint).length : Int) - 1 }
  else s

/-- Third phase of `append`: push the event and advance the cursor. -/
def pushEvent (s : Store P S M) (e : BEvent P) : Store P S M :=
  { s with events := s.events ++ [e], index := s.index + 1 }

/-- Fourth phase of `append`: record a checkpoint at the cursor when it lands
on a multiple of the (truthy) interval.  JavaScript `%` is truncated
remainder, hence `Int.tmod`. -/
def intervalCheckpoint (s : Store P S M) : Store P S M :=
  if s.enableCheckpoints ∧ s.checkpointInterval ≠ 0 ∧
      Int.tmod s.index (s.checkpointInterval : Int) = 0 then
    { s with checkpoints := cpSet s.checkpoints s.index (project s) }
  else s

/-- `append(payload)`, as the composition of its four phases in source
order (truncate future, enforce max events, push, interval checkpoint);
the subscriber notification reads `project` but changes nothing. -/
def append (s : Store P S M) (e : BEvent P) : Store P S M :=
  intervalCheckpoint (pushEvent (enforceMaxEvents (truncateFuture s)) e)

/-- `undo()`: step the cursor back when possible, reporting success. -/
def undo (s : Store P S M) : Bool × Store P S M :=
  if 0 ≤ s.index then (true, { s with index := s.index - 1 }) else (false, s)

/-- `redo()`: step the cursor forward when possible, reporting success. -/
def redo (s : Store P S M) : Bool × Store P S M :=
  if s.index < (s.events.length : Int) - 1 then
    (true, { s with index := s.index + 1 })
  else (false, s)

/-- `navigate(index)`: clamp the target into `[-1, length - 1]` and move the
cursor there. -/
def navigate (s : Store P S M) (i : Int) : Store P S M :=
  { s with index := max (-1) (min i ((s.events.length : Int) - 1)) }

/-- The scan of `navigateToTime`: walk the log from the front remembering the
last position whose timestamp is `<= t`, stopping at the first event whose
timestamp exceeds `t` (the loop's `break`). -/
def scanToTime (t : Int) : List (BEvent P) → Int → Int → Int
  | [], _, target => target
  | e :: rest, i, target =>
    if e.timestamp ≤ t then scanToTime t rest (i + 1) i else target

/-- `navigateToTime(timestamp)`: scan, then delegate to `navigate`. -/
def navigateToTime (s : Store P S M) (t : Int) : Store P S M :=
  navigate s (scanToTime t s.events 0 (-1))

/-- `getIndex()`. -/
def getIndex (s : Store P S M) : Int :=
  s.index

/-- `getEvents()` (the copy is irrelevant to a value semantics). -/
def getEvents (s : Store P S M) : List (BEvent P) :=
  s.events

/-- `getActiveEvents()`: the log up to the cursor. -/
def getActiveEvents (s : Store P S M) : List (BEvent P) :=
  s.events.take (s.index + 1).toNat

/-- `canUndo()`. -/
def canUndo (s : Store P S M) : Bool :=
  decide (0 ≤ s.index)

/-- `canRedo()`. -/
def canRedo (s : Store P S M) : Bool :=
  decide (s.index < (s.events.length : Int) - 1)

/-- `snapshot()`; the capture time is passed in (the source reads the
clock). -/
def snapshot (s : Store P S M) (now : Int) : StoreSnapshot P S M :=
  { events := s.events
    index := s.index
    state := project s
    timestamp := now
    metadata := some s.metadata }

/-- The checkpoint-rebuilding loop shared by `restore` and `fork`:
`for (let i = interval - 1; i <= this.index; i += interval)` record
`projectAtIndex(i)` at `i`.  The loop is driven by fuel, which the callers
supply large enough (`index.toNat + 1` bounds the iteration count since the
step is at least `1`). -/
def rebuildLoop (interval : Nat) : Nat → Int → Store P S M → Store P S M
  | 0, _, s => s
  | fuel + 1, i, s =>
    if i ≤ s.index then
      rebuildLoop interval fuel (i + (interval : Int))
        { s with checkpoints := cpSet s.checkpoints i (projectAtIndex s i) }
    else s

/-- `restore(snapshot)`: replace log, cursor and metadata, clear the
checkpoints, then rebuild them (the `-1` checkpoint and the interval loop)
when checkpointing is enabled. -/
def restore (s : Store P S M) (sn : StoreSnapshot P S M) : Store P S M :=
  let s1 := { s with
    events := sn.events
    index := sn.index
    metadata := sn.metadata.getD []
    checkpoints := ([] : List (Int × S)) }
  if s1.enableCheckpoints then
    let s2 := { s1 with checkpoints := [((-1 : Int), s1.initialState)] }
    if s2.checkpointInterval ≠ 0 then
      rebuildLoop s2.checkpointInterval (s2.index.toNat + 1)
        ((s2.checkpointInterval : Int) - 1) s2
    else s2
  else s1

/-- The defaulted options of a store, handed back to the constructor by
`fork` (`this.options` has every field set after construction). -/
def toRawOptions (s : Store P S M) : StoreOptions :=
  { maxEvents := some s.maxEvents
    enableCheckpoints := some s.enableCheckpoints
    checkpointInterval := some s.checkpointInterval }

/-- `fork()`: a new store with the same configuration, the active events,
cursor at their end, copied metadata, and checkpoints rebuilt from
scratch. -/
def fork (s : Store P S M) : Store P S M :=
  let f0 : Store P S M := new s.initialState s.reducer (toRawOptions s)
  let f1 := { f0 with
    events := getActiveEvents s
    index := ((getActiveEvents s).length : Int) - 1
    metadata := s.metadata }
  if s.enableCheckpoints ∧ s.checkpointInterval ≠ 0 then
    let f2 := { f1 with checkpoints := cpSet f1.checkpoints (-1) s.initialState }
    rebuildLoop s.checkpointInterval (f2.index.toNat + 1)
      ((s.checkpointInterval : Int) - 1) f2
  else f1

/-- `clear()`: empty log, cursor `-1`, metadata gone, and the `-1` checkpoint
re-created when (defaulted) checkpointing is enabled. -/
def clear (s : Store P S M) : Store P S M :=
  let s1 := { s with
    events := ([] : List (BEvent P))
    index := (-1 : Int)
    checkpoints := ([] : List (Int × S))
    metadata := ([] : List (String × M)) }
  if s1.enableCheckpoints then
    { s1 with checkpoints := [((-1 : Int), s1.initialState)] }
  else s1

/-! ### Semantic layer: prefix folds and checkpoint correctness -/

/-- Fold of the reducer over log positions `0..p` from the initial state
(the checkpoint-free meaning of projection at `p`; for `p < 0` this is the
initial state). -/
def foldUpTo (red : S → BEvent P → S) (init : S) (ev : List (BEvent P))
    (p : Int) : S :=
  (ev.take (p + 1).toNat).foldl red init

/-- A checkpoint map is correct for a log when every entry caches the prefix
fold at its position. -/
def ckOK (red : S → BEvent P → S) (init : S) (ev : List (BEvent P))
    (cps : List (Int × S)) : Prop :=
  ∀ q ∈ cps, q.2 = foldUpTo red init ev q.1

/-- Checkpoint correctness of a store. -/
def goodCk (s : Store P S M) : Prop :=
  ckOK s.reducer s.initialState s.events s.checkpoints

/-- No checkpoint sits beyond the end of the log. -/
def ckBounded (s : Store P S M) : Prop :=
  ∀ q ∈ s.checkpoints, q.1 ≤ (s.events.length : Int) - 1

/-- The store invariant: correct, bounded checkpoints and a cursor inside
`[-1, length - 1]`. -/
def Inv (s : Store P S M) : Prop :=
  goodCk s ∧ ckBounded s ∧ -1 ≤ s.index ∧ s.index ≤ (s.events.length : Int) - 1

theorem foldUpTo_neg (red : S → BEvent P → S) (init : S) (ev : List (BEvent P))
    (p : Int) (hp : p < 0) : foldUpTo red init ev p = init := by
  unfold foldUpTo
  have h0 : (p + 1).toNat = 0 := by omega
  rw [h0, List.take_zero, List.foldl_nil]

/-! ### List decomposition lemmas -/

theorem foldl_take_split {α β : Type} (f : β → α → β) (init : β) (l : List α)
    (a b : Nat) (h : a ≤ b) :
    (l.take b).foldl f init
      = ((l.take b).drop a).foldl f ((l.take a).foldl f init) := by
  conv_lhs => rw [← List.take_append_drop a (l.take b)]
  rw [List.foldl_append, List.take_take, Nat.min_eq_left h]

theorem segment_shift {α : Type} (X : List α) (off a b : Nat) :
    ((X.drop off).take b).drop a = (X.take (off + b)).drop (off + a) := by
  rw [List.take_drop, List.drop_drop]

/-! ### The nearest-checkpoint scan -/

theorem ckStep_fold_spec (target : Int) :
    ∀ (l : List (Int × S)) (acc : Int × S), -1 ≤ acc.1 → acc.1 ≤ target →
      -1 ≤ (List.foldl (ckStep target) acc l).1 ∧
      (List.foldl (ckStep target) acc l).1 ≤ target ∧
      (List.foldl (ckStep target) acc l = acc ∨
        (List.foldl (ckStep target) acc l ∈ l ∧
          0 ≤ (List.foldl (ckStep target) acc l).1)) := by
  intro l
  induction l with
  | nil => intro acc h1 h2; exact ⟨h1, h2, Or.inl rfl⟩
  | cons q rest ih =>
    intro acc h1 h2
    rw [List.foldl_cons]
    by_cases hc : q.1 ≤ target ∧ acc.1 < q.1
    · have hq : ckStep target acc q = q := by
        unfold ckStep; rw [if_pos hc]
      rw [hq]
      obtain ⟨r1, r2, r3⟩ := ih q (by omega) hc.1
      refine ⟨r1, r2, Or.inr ?_⟩
      rcases r3 with h | ⟨hm, hp⟩
      · exact ⟨by rw [h]; exact List.mem_cons_self _ _, by rw [h]; omega⟩
      · exact ⟨List.mem_cons_of_mem _ hm, hp⟩
    · have hq : ckStep target acc q = acc := by
        unfold ckStep; rw [if_neg hc]
      rw [hq]
      obtain ⟨r1, r2, r3⟩ := ih acc h1 h2
      refine ⟨r1, r2, ?_⟩
      rcases r3 with h | ⟨hm, hp⟩
      · exact Or.inl h
      · exact Or.inr ⟨List.mem_cons_of_mem _ hm, hp⟩

theorem ckStep_fold_pos (target : Int) :
    ∀ (l : List (Int × S)) (acc : Int × S), -1 ≤ acc.1 → acc.1 ≤ target →
      ((∃ q ∈ l, 0 ≤ q.1 ∧ q.1 ≤ target) ∨ 0 ≤ acc.1) →
      0 ≤ (List.foldl (ckStep target) acc l).1 := by
  intro l
  induction l with
  | nil =>
    intro acc h1 h2 h3
    rcases h3 with ⟨q, hq, _⟩ | h3
    · exact absurd hq (List.not_mem_nil q)
    · exact h3
  | cons q rest ih =>
    intro acc h1 h2 h3
    rw [List.foldl_cons]
    by_cases hc : q.1 ≤ target ∧ acc.1 < q.1
    · have hq : ckStep target acc q = q := by
        unfold ckStep; rw [if_pos hc]
      rw [hq]
      exact ih q (by omega) hc.1 (Or.inr (by omega))
    · have hq : ckStep target acc q = acc := by
        unfold ckStep; rw [if_neg hc]
      rw [hq]
      rcases h3 with ⟨q0, hq0, hq0a, hq0b⟩ | h3
      · rcases List.mem_cons.mp hq0 with h | h
        · subst h
          have : 0 ≤ acc.1 := by
            rcases not_and_or.mp hc with h' | h'
            · exact absurd hq0b h'
            · omega
          exact ih acc h1 h2 (Or.inr this)
        · exact ih acc h1 h2 (Or.inl ⟨q0, h, hq0a, hq0b⟩)
      · exact ih acc h1 h2 (Or.inr h3)

theorem nearestCk_spec (init : S) (target : Int) (cps : List (Int × S))
    (h : -1 ≤ target) :
    -1 ≤ (nearestCk init target cps).1 ∧
    (nearestCk init target cps).1 ≤ target ∧
    (nearestCk init target cps = ((-1 : Int), init) ∨
      (nearestCk init target cps ∈ cps ∧ 0 ≤ (nearestCk init target cps).1)) :=
  ckStep_fold_spec target cps ((-1 : Int), init) le_rfl h

theorem nearestCk_seeded (init : S) (target : Int) (cps : List (Int × S))
    (hseed : ∃ q ∈ cps, q.1 = 0) (h : 0 ≤ target) :
    0 ≤ (nearestCk init target cps).1 ∧
    (nearestCk init target cps).1 ≤ target ∧
    nearestCk init target cps ∈ cps := by
  obtain ⟨q0, hq0, hq0k⟩ := hseed
  have hpos : 0 ≤ (nearestCk init target cps).1 :=
    ckStep_fold_pos target cps ((-1 : Int), init) le_rfl (by omega)
      (Or.inl ⟨q0, hq0, by omega, by omega⟩)
  obtain ⟨_, r2, r3⟩ := nearestCk_spec init target cps (by omega)
  refine ⟨hpos, r2, ?_⟩
  rcases r3 with hbase | ⟨hm, _⟩
  · rw [hbase] at hpos; omega
  · exact hm

/-! ### Projection correctness -/

/-- When every checkpoint caches a prefix fold, the checkpoint-seeded
projection agrees with the full fold from the initial state (at every
target, and unconditionally when checkpointing is disabled). -/
theorem projectAtIndex_eq_foldUpTo (s : Store P S M)
    (h : s.enableCheckpoints = true → goodCk s) (p : Int) :
    projectAtIndex s p = foldUpTo s.reducer s.initialState s.events p := by
  unfold projectAtIndex
  by_cases hp : p < 0
  · rw [if_pos hp, foldUpTo_neg _ _ _ _ hp]
  · rw [if_neg hp]
    cases hen : s.enableCheckpoints with
    | false =>
      rw [if_neg (by simp)]
      rfl
    | true =>
      rw [if_pos rfl]
      have hg := h hen
      obtain ⟨r1, r2, r3⟩ := nearestCk_spec s.initialState p s.checkpoints (by omega)
      set r := nearestCk s.initialState p s.checkpoints with hr
      have hval : r.2 = foldUpTo s.reducer s.initialState s.events r.1 := by
        rcases r3 with hbase | ⟨hm, _⟩
        · rw [hbase]
          exact (foldUpTo_neg _ _ _ _ (by omega)).symm
        · exact hg r hm
      show ((s.events.take (p + 1).toNat).drop (r.1 + 1).toNat).foldl s.reducer r.2
          = foldUpTo s.reducer s.initialState s.events p
      rw [hval]
      unfold foldUpTo
      conv_rhs => rw [foldl_take_split s.reducer s.initialState s.events
        (r.1 + 1).toNat (p + 1).toNat (by omega)]

/-- Projection correctness relative to a longer history `X` of which the log
is the suffix after `off` dropped events: when every checkpoint at a
nonnegative position caches the fold of `X` through the corresponding
absolute position, and a seed checkpoint at position `0` is present, the
checkpoint-seeded projection at `p >= 0` equals the fold of `X` through
absolute position `off + p`. -/
theorem projectAtIndex_offset (s : Store P S M) (X : List (BEvent P)) (off : Nat)
    (hev : s.events = X.drop off)
    (hen : s.enableCheckpoints = true)
    (hck : ∀ q ∈ s.checkpoints, 0 ≤ q.1 →
      q.2 = (X.take (off + (q.1 + 1).toNat)).foldl s.reducer s.initialState)
    (hseed : ∃ q ∈ s.checkpoints, q.1 = 0)
    (p : Int) (hp : 0 ≤ p) :
    projectAtIndex s p
      = (X.take (off + (p + 1).toNat)).foldl s.reducer s.initialState := by
  unfold projectAtIndex
  rw [if_neg (by omega), hen, if_pos rfl]
  obtain ⟨r1, r2, r3⟩ := nearestCk_seeded s.initialState p s.checkpoints hseed hp
  set r := nearestCk s.initialState p s.checkpoints with hr
  have hval : r.2 = (X.take (off + (r.1 + 1).toNat)).foldl s.reducer s.initialState :=
    hck r r3 r1
  show ((s.events.take (p + 1).toNat).drop (r.1 + 1).toNat).foldl s.reducer r.2
      = (X.take (off + (p + 1).toNat)).foldl s.reducer s.initialState
  rw [hval, hev, segment_shift X off (r.1 + 1).toNat (p + 1).toNat]
  conv_rhs => rw [foldl_take_split s.reducer s.initialState X
    (off + (r.1 + 1).toNat) (off + (p + 1).toNat) (by omega)]

/-! ### Checkpoint map membership -/

theorem mem_cpSet {m : List (Int × S)} {k : Int} {v : S} {q : Int × S}
    (h : q ∈ cpSet m k v) : q ∈ m ∨ q = (k, v) := by
  unfold cpSet at h
  split at h
  · obtain ⟨q0, hq0, heq⟩ := List.mem_map.mp h
    split at heq
    · exact Or.inr heq.symm
    · rw [← heq]; exact Or.inl hq0
  · rcases List.mem_append.mp h with h | h
    · exact Or.inl h
    · exact Or.inr (List.mem_singleton.mp h)

theorem cpSet_mem_of_ne {m : List (Int × S)} {k : Int} {v : S} {q : Int × S}
    (hq : q ∈ m) (hne : q.1 ≠ k) : q ∈ cpSet m k v := by
  unfold cpSet
  split
  · refine List.mem_map.mpr ⟨q, hq, ?_⟩
    rw [if_neg (by simpa using hne)]
  · exact List.mem_append.mpr (Or.inl hq)

theorem cpSet_mem_self (m : List (Int × S)) (k : Int) (v : S) :
    (k, v) ∈ cpSet m k v := by
  unfold cpSet
  split
  case isTrue h =>
    obtain ⟨q0, hq0, hk⟩ := List.any_eq_true.mp h
    refine List.mem_map.mpr ⟨q0, hq0, ?_⟩
    rw [if_pos hk]
  case isFalse h =>
    exact List.mem_append.mpr (Or.inr (List.mem_singleton.mpr rfl))

/-! ### Transfers of `foldUpTo` along log edits -/

theorem foldUpTo_append_of_le (red : S → BEvent P → S) (init : S)
    (ev : List (BEvent P)) (e : BEvent P) (p : Int)
    (h : p ≤ (ev.length : Int) - 1) :
    foldUpTo red init (ev ++ [e]) p = foldUpTo red init ev p := by
  unfold foldUpTo
  rw [List.take_append_of_le_length (by omega : (p + 1).toNat ≤ ev.length)]

theorem foldUpTo_take (red : S → BEvent P → S) (init : S)
    (ev : List (BEvent P)) (n : Nat) (p : Int) (h : p + 1 ≤ (n : Int)) :
    foldUpTo red init (ev.take n) p = foldUpTo red init ev p := by
  unfold foldUpTo
  rw [List.take_take, Nat.min_eq_left (by omega)]

/-! ### Invariant preservation by the operations -/

theorem Inv_new (init : S) (red : S → BEvent P → S) (opts : StoreOptions) :
    Inv (new (P := P) (M := M) init red opts) := by
  unfold Inv goodCk ckOK ckBounded new
  dsimp only
  refine ⟨?_, ?_, by omega, by simp⟩
  · intro q hq
    split at hq
    · rw [List.mem_singleton.mp hq]
      exact (foldUpTo_neg _ _ _ _ (by omega)).symm
    · exact absurd hq (List.not_mem_nil q)
  · intro q hq
    split at hq
    · rw [List.mem_singleton.mp hq]; simp
    · exact absurd hq (List.not_mem_nil q)

theorem truncate_maxEvents (s : Store P S M) :
    (truncateFuture s).maxEvents = s.maxEvents := by
  unfold truncateFuture; split <;> rfl

theorem truncate_index (s : Store P S M) :
    (truncateFuture s).index = s.index := by
  unfold truncateFuture; split <;> rfl

theorem Inv_truncate (s : Store P S M) (h : Inv s) :
    Inv (truncateFuture s) ∧
    (truncateFuture s).index = ((truncateFuture s).events.length : Int) - 1 := by
  obtain ⟨hg, hb, hi1, hi2⟩ := h
  unfold truncateFuture
  by_cases hc : s.index < (s.events.length : Int) - 1
  · rw [if_pos hc]
    have hlen : (s.events.take (s.index + 1).toNat).length = (s.index + 1).toNat :=
      List.length_take_of_le (by omega)
    refine ⟨⟨?_, ?_, by dsimp only; omega, ?_⟩, ?_⟩
    · intro q hq
      obtain ⟨hqm, hqd⟩ := List.mem_filter.mp hq
      have hqle : q.1 ≤ s.index := by simpa using hqd
      show q.2 = foldUpTo s.reducer s.initialState
        (s.events.take (s.index + 1).toNat) q.1
      rw [foldUpTo_take _ _ _ _ _ (by omega)]
      exact hg q hqm
    · intro q hq
      obtain ⟨hqm, hqd⟩ := List.mem_filter.mp hq
      have hqle : q.1 ≤ s.index := by simpa using hqd
      show q.1 ≤ ((s.events.take (s.index + 1).toNat).length : Int) - 1
      rw [hlen]; omega
    · show s.index ≤ ((s.events.take (s.index + 1).toNat).length : Int) - 1
      rw [hlen]; omega
    · show s.index = ((s.events.take (s.index + 1).toNat).length : Int) - 1
      rw [hlen]; omega
  · rw [if_neg hc]
    exact ⟨⟨hg, hb, hi1, hi2⟩, by omega⟩

/-- Eviction fires during `append(e)` exactly when, after the truncation
phase, `maxEvents` is truthy and the log has reached it. -/
def evictionFires (s : Store P S M) : Prop :=
  (truncateFuture s).maxEvents ≠ 0 ∧
    (truncateFuture s).maxEvents ≤ (truncateFuture s).events.length

instance (s : Store P S M) : Decidable (evictionFires s) := by
  unfold evictionFires; infer_instance

theorem enforce_noop (s : Store P S M)
    (h : ¬ (s.maxEvents ≠ 0 ∧ s.maxEvents ≤ s.events.length)) :
    enforceMaxEvents s = s := by
  unfold enforceMaxEvents; rw [if_neg h]

theorem Inv_push (s : Store P S M) (e : BEvent P) (h : Inv s)
    (htop : s.index = (s.events.length : Int) - 1) :
    Inv (pushEvent s e) ∧
    (pushEvent s e).index = ((pushEvent s e).events.length : Int) - 1 := by
  obtain ⟨hg, hb, hi1, hi2⟩ := h
  unfold pushEvent
  have hlen : ((s.events ++ [e]).length : Int) = (s.events.length : Int) + 1 := by
    rw [List.length_append, List.length_singleton]; push_cast; ring
  refine ⟨⟨?_, ?_, by dsimp only; omega, ?_⟩, ?_⟩
  · intro q hq
    show q.2 = foldUpTo s.reducer s.initialState (s.events ++ [e]) q.1
    rw [foldUpTo_append_of_le _ _ _ _ _ (hb q hq)]
    exact hg q hq
  · intro q hq
    have := hb q hq
    show q.1 ≤ ((s.events ++ [e]).length : Int) - 1
    rw [hlen]; omega
  · show s.index + 1 ≤ ((s.events ++ [e]).length : Int) - 1
    rw [hlen]; omega
  · show s.index + 1 = ((s.events ++ [e]).length : Int) - 1
    rw [hlen]; omega

theorem Inv_intervalCk (s : Store P S M) (h : Inv s) :
    Inv (intervalCheckpoint s) := by
  obtain ⟨hg, hb, hi1, hi2⟩ := h
  unfold intervalCheckpoint
  split
  case isTrue hc =>
    refine ⟨?_, ?_, hi1, hi2⟩
    · intro q hq
      rcases mem_cpSet hq with hm | hq2
      · exact hg q hm
      · rw [hq2]
        show project s = foldUpTo s.reducer s.initialState s.events s.index
        exact projectAtIndex_eq_foldUpTo s (fun _ => hg) s.index
    · intro q hq
      rcases mem_cpSet hq with hm | hq2
      · exact hb q hm
      · rw [hq2]; exact hi2
  case isFalse => exact ⟨hg, hb, hi1, hi2⟩

theorem Inv_append (s : Store P S M) (e : BEvent P) (h : Inv s)
    (hne : ¬ evictionFires s) : Inv (append s e) := by
  obtain ⟨hT, hTtop⟩ := Inv_truncate s h
  unfold append
  rw [enforce_noop (truncateFuture s) hne]
  obtain ⟨hP, _⟩ := Inv_push (truncateFuture s) e hT hTtop
  exact Inv_intervalCk _ hP

theorem Inv_undo (s : Store P S M) (h : Inv s) : Inv (undo s).2 := by
  obtain ⟨hg, hb, hi1, hi2⟩ := h
  unfold undo
  split
  case isTrue hc =>
    exact ⟨hg, hb, by show -1 ≤ s.index - 1; omega,
      by show s.index - 1 ≤ (s.events.length : Int) - 1; omega⟩
  case isFalse => exact ⟨hg, hb, hi1, hi2⟩

theorem Inv_redo (s : Store P S M) (h : Inv s) : Inv (redo s).2 := by
  obtain ⟨hg, hb, hi1, hi2⟩ := h
  unfold redo
  split
  case isTrue hc =>
    exact ⟨hg, hb, by show -1 ≤ s.index + 1; omega,
      by show s.index + 1 ≤ (s.events.length : Int) - 1; omega⟩
  case isFalse => exact ⟨hg, hb, hi1, hi2⟩

theorem Inv_navigate (s : Store P S M) (i : Int) (h : Inv s) :
    Inv (navigate s i) := by
  obtain ⟨hg, hb, hi1, hi2⟩ := h
  unfold navigate
  refine ⟨hg, hb, ?_, ?_⟩
  · show -1 ≤ max (-1) (min i ((s.events.length : Int) - 1)); omega
  · show max (-1) (min i ((s.events.length : Int) - 1))
        ≤ (s.events.length : Int) - 1
    omega

theorem Inv_navigateToTime (s : Store P S M) (t : Int) (h : Inv s) :
    Inv (navigateToTime s t) :=
  Inv_navigate s _ h

theorem Inv_clear (s : Store P S M) : Inv (clear s) := by
  unfold Inv goodCk ckOK ckBounded clear
  dsimp only
  split
  · refine ⟨?_, ?_, by simp, by simp⟩
    · intro q hq
      rw [List.mem_singleton.mp hq]
      exact (foldUpTo_neg _ _ _ _ (by omega)).symm
    · intro q hq
      rw [List.mem_singleton.mp hq]; simp
  · exact ⟨by intro q hq; exact absurd hq (List.not_mem_nil q),
      by intro q hq; exact absurd hq (List.not_mem_nil q), by simp, by simp⟩

theorem rebuildLoop_fields (interval : Nat) :
    ∀ (fuel : Nat) (i : Int) (s : Store P S M),
      (rebuildLoop interval fuel i s).events = s.events ∧
      (rebuildLoop interval fuel i s).index = s.index ∧
      (rebuildLoop interval fuel i s).initialState = s.initialState ∧
      (rebuildLoop interval fuel i s).reducer = s.reducer ∧
      (rebuildLoop interval fuel i s).enableCheckpoints = s.enableCheckpoints ∧
      (rebuildLoop interval fuel i s).metadata = s.metadata := by
  intro fuel
  induction fuel with
  | zero => intro i s; exact ⟨rfl, rfl, rfl, rfl, rfl, rfl⟩
  | succ n ih =>
    intro i s
    unfold rebuildLoop
    split
    · exact ih _ _
    · exact ⟨rfl, rfl, rfl, rfl, rfl, rfl⟩

theorem rebuildLoop_good (interval : Nat) :
    ∀ (fuel : Nat) (i : Int) (s : Store P S M),
      s.enableCheckpoints = true → goodCk s →
      goodCk (rebuildLoop interval fuel i s) := by
  intro fuel
  induction fuel with
  | zero => intro i s _ hg; exact hg
  | succ n ih =>
    intro i s hen hg
    unfold rebuildLoop
    split
    · refine ih _ _ hen ?_
      intro q hq
      rcases mem_cpSet hq with hm | hq2
      · exact hg q hm
      · rw [hq2]
        show projectAtIndex s i = foldUpTo s.reducer s.initialState s.events i
        exact projectAtIndex_eq_foldUpTo s (fun _ => hg) i
    · exact hg

theorem rebuildLoop_bounded (interval : Nat) :
    ∀ (fuel : Nat) (i : Int) (s : Store P S M),
      s.index ≤ (s.events.length : Int) - 1 → ckBounded s →
      ckBounded (rebuildLoop interval fuel i s) := by
  intro fuel
  induction fuel with
  | zero => intro i s _ hb; exact hb
  | succ n ih =>
    intro i s hidx hb
    unfold rebuildLoop
    split
    case isTrue hle =>
      refine ih _ _ hidx ?_
      intro q hq
      rcases mem_cpSet hq with hm | hq2
      · exact hb q hm
      · rw [hq2]
        show i ≤ (s.events.length : Int) - 1
        omega
    case isFalse => exact hb

theorem rebuildLoop_hasInit (interval : Nat) :
    ∀ (fuel : Nat) (i : Int) (s : Store P S M), 0 ≤ i →
      ((-1 : Int), s.initialState) ∈ s.checkpoints →
      ((-1 : Int), s.initialState) ∈ (rebuildLoop interval fuel i s).checkpoints := by
  intro fuel
  induction fuel with
  | zero => intro i s _ hm; exact hm
  | succ n ih =>
    intro i s hi hm
    unfold rebuildLoop
    split
    · refine ih _ _ (by omega) ?_
      exact cpSet_mem_of_ne hm (by show (-1 : Int) ≠ i; omega)
    · exact hm

theorem Inv_restore (s : Store P S M) (sn : StoreSnapshot P S M)
    (h1 : -1 ≤ sn.index) (h2 : sn.index ≤ (sn.events.length : Int) - 1) :
    Inv (restore s sn) := by
  unfold restore
  dsimp only
  split
  case isTrue hen =>
    split
    case isTrue hint =>
      refine ⟨?_, ?_, ?_, ?_⟩
      · refine rebuildLoop_good _ _ _ _ hen ?_
        intro q hq
        rw [List.mem_singleton.mp hq]
        exact (foldUpTo_neg _ _ _ _ (by omega)).symm
      · refine rebuildLoop_bounded _ _ _ _ h2 ?_
        intro q hq
        rw [List.mem_singleton.mp hq]
        show (-1 : Int) ≤ (sn.events.length : Int) - 1
        omega
      · rw [(rebuildLoop_fields _ _ _ _).2.1]; exact h1
      · rw [(rebuildLoop_fields _ _ _ _).2.1, (rebuildLoop_fields _ _ _ _).1]
        exact h2
    case isFalse hint =>
      refine ⟨?_, ?_, h1, h2⟩
      · intro q hq
        rw [List.mem_singleton.mp hq]
        exact (foldUpTo_neg _ _ _ _ (by omega)).symm
      · intro q hq
        rw [List.mem_singleton.mp hq]
        show (-1 : Int) ≤ (sn.events.length : Int) - 1
        omega
  case isFalse hen =>
    refine ⟨?_, ?_, h1, h2⟩
    · intro q hq; exact absurd hq (List.not_mem_nil q)
    · intro q hq; exact absurd hq (List.not_mem_nil q)

theorem new_ck_entries (init : S) (red : S → BEvent P → S) (opts : StoreOptions)
    {q : Int × S} (hq : q ∈ (new (P := P) (M := M) init red opts).checkpoints) :
    q = ((-1 : Int), init) := by
  unfold new at hq
  dsimp only at hq
  split at hq
  · exact List.mem_singleton.mp hq
  · exact absurd hq (List.not_mem_nil q)

theorem Inv_fork (s : Store P S M) : Inv (fork s) := by
  unfold fork
  dsimp only
  split
  case isTrue hc =>
    refine ⟨?_, ?_, ?_, ?_⟩
    · refine rebuildLoop_good _ _ _ _ ?_ ?_
      · show (new (P := P) (M := M) s.initialState s.reducer
            (toRawOptions s)).enableCheckpoints = true
        show (toRawOptions s).enableCheckpoints.getD true = true
        show s.enableCheckpoints = true
        exact hc.1
      · intro q hq
        have hq1 : q = ((-1 : Int), s.initialState) := by
          rcases mem_cpSet hq with hm | hq2
          · exact new_ck_entries _ _ _ hm
          · exact hq2
        rw [hq1]
        exact (foldUpTo_neg _ _ _ _ (by omega)).symm
    · refine rebuildLoop_bounded _ _ _ _ ?_ ?_
      · show ((getActiveEvents s).length : Int) - 1
            ≤ ((getActiveEvents s).length : Int) - 1
        exact le_rfl
      · intro q hq
        have hq1 : q = ((-1 : Int), s.initialState) := by
          rcases mem_cpSet hq with hm | hq2
          · exact new_ck_entries _ _ _ hm
          · exact hq2
        rw [hq1]
        show (-1 : Int) ≤ ((getActiveEvents s).length : Int) - 1
        omega
    · rw [(rebuildLoop_fields _ _ _ _).2.1]
      show -1 ≤ ((getActiveEvents s).length : Int) - 1
      omega
    · exact le_of_eq (by
        rw [(rebuildLoop_fields _ _ _ _).2.1, (rebuildLoop_fields _ _ _ _).1])
  case isFalse hc =>
    refine ⟨?_, ?_, ?_, ?_⟩
    · intro q hq
      have hm : q ∈ (new (P := P) (M := M) s.initialState s.reducer
          (toRawOptions s)).checkpoints := hq
      rw [new_ck_entries _ _ _ hm]
      exact (foldUpTo_neg _ _ _ _ (by omega)).symm
    · intro q hq
      have hm : q ∈ (new (P := P) (M := M) s.initialState s.reducer
          (toRawOptions s)).checkpoints := hq
      rw [new_ck_entries _ _ _ hm]
      show (-1 : Int) ≤ ((getActiveEvents s).length : Int) - 1
      omega
    · show -1 ≤ ((getActiveEvents s).length : Int) - 1
      omega
    · exact le_rfl

/-! ### Reachability through the public operations -/

/-- Stores reachable from a freshly constructed store through the public
operations, with no restriction (eviction may fire). -/
inductive Reached : Store P S M → Prop where
  | upon_new (init : S) (red : S → BEvent P → S) (opts : StoreOptions) :
      Reached (new init red opts)
  | upon_append (s : Store P S M) (e : BEvent P) :
      Reached s → Reached (append s e)
  | upon_undo (s : Store P S M) : Reached s → Reached (undo s).2
  | upon_redo (s : Store P S M) : Reached s → Reached (redo s).2
  | upon_navigate (s : Store P S M) (i : Int) :
      Reached s → Reached (navigate s i)
  | upon_navigateToTime (s : Store P S M) (t : Int) :
      Reached s → Reached (navigateToTime s t)
  | upon_clear (s : Store P S M) : Reached s → Reached (clear s)
  | upon_fork (s : Store P S M) : Reached s → Reached (fork s)
  | upon_restore (s : Store P S M) (sn : StoreSnapshot P S M) :
      Reached s → Reached (restore s sn)

/-- Stores reachable through the public operations with the eviction branch
never firing during any `append`, and `restore` fed well-formed snapshots
(cursor within the snapshot's log, as `snapshot()` always produces). -/
inductive ReachedNoEvict : Store P S M → Prop where
  | upon_new (init : S) (red : S → BEvent P → S) (opts : StoreOptions) :
      ReachedNoEvict (new init red opts)
  | upon_append (s : Store P S M) (e : BEvent P) :
      ReachedNoEvict s → ¬ evictionFires s → ReachedNoEvict (append s e)
  | upon_undo (s : Store P S M) : ReachedNoEvict s → ReachedNoEvict (undo s).2
  | upon_redo (s : Store P S M) : ReachedNoEvict s → ReachedNoEvict (redo s).2
  | upon_navigate (s : Store P S M) (i : Int) :
      ReachedNoEvict s → ReachedNoEvict (navigate s i)
  | upon_navigateToTime (s : Store P S M) (t : Int) :
      ReachedNoEvict s → ReachedNoEvict (navigateToTime s t)
  | upon_clear (s : Store P S M) : ReachedNoEvict s → ReachedNoEvict (clear s)
  | upon_fork (s : Store P S M) : ReachedNoEvict s → ReachedNoEvict (fork s)
  | upon_restore (s : Store P S M) (sn : StoreSnapshot P S M) :
      ReachedNoEvict s → -1 ≤ sn.index →
      sn.index ≤ (sn.events.length : Int) - 1 →
      ReachedNoEvict (restore s sn)

theorem Inv_of_reached {s : Store P S M} (h : ReachedNoEvict s) : Inv s := by
  induction h with
  | upon_new init red opts => exact Inv_new init red opts
  | upon_append s e _ hne ih => exact Inv_append s e ih hne
  | upon_undo s _ ih => exact Inv_undo s ih
  | upon_redo s _ ih => exact Inv_redo s ih
  | upon_navigate s i _ ih => exact Inv_navigate s i ih
  | upon_navigateToTime s t _ ih => exact Inv_navigateToTime s t ih
  | upon_clear s _ _ => exact Inv_clear s
  | upon_fork s _ _ => exact Inv_fork s
  | upon_restore s sn _ h1 h2 _ => exact Inv_restore s sn h1 h2

/-! ### Concrete counter instantiation used in examples and counterexamples -/

/-- Counter reducer: each event adds one (the spec's `count += 1`). -/
def incrRed : Nat → BEvent Unit → Nat := fun n _ => n + 1

/-- An event carrying a given timestamp (ids are opaque and irrelevant to the
store's semantics). -/
def mkEv (t : Int) : BEvent Unit :=
  { id := "", timestamp := t, type := "inc", payload := () }

/-- Counter store with `maxEvents = 2` (checkpoint options at their
defaults) after three appends: the eviction branch has fired once, the log
holds the last two events, and the seed checkpoint at position `0` carries
the discarded prefix's state. -/
def evicted3 : Store Unit Nat Unit :=
  append (append (append (new 0 incrRed { maxEvents := some 2 })
    (mkEv 0)) (mkEv 1)) (mkEv 2)

/-- Claim C1, counterexample: `evicted3` is reachable through three appends
and position `1` is inside its log, yet the checkpoint-seeded projection at
`1` (which is `3`, counting the evicted prefix via the seed checkpoint)
differs from the fold of the current log positions `0..1` from the initial
state (which is `2`).  The claim fails on stores that have undergone
eviction. -/
theorem claim_C1_counterexample :
    Reached evicted3 ∧ -1 ≤ (1 : Int) ∧
    (1 : Int) ≤ (evicted3.events.length : Int) - 1 ∧
    projectAtIndex evicted3 1
      ≠ foldUpTo evicted3.reducer evicted3.initialState evicted3.events 1 :=
  ⟨.upon_append _ _ (.upon_append _ _ (.upon_append _ _ (.upon_new _ _ _))),
    by decide, by decide, by decide⟩

/-- Claim C1 (amended): for every store reachable through the public
operations with the eviction branch never firing (and well-formed snapshots
passed to `restore`), projecting at any position `p` with
`-1 <= p <= log.length - 1` via the checkpoint-seeded path equals folding
the reducer over log positions `0..p` from the initial state — for any
checkpoint interval and also when checkpointing is disabled.  (After an
eviction the checkpoint-seeded projection instead tracks the full logical
history, as the C1 counterexample shows.) -/
theorem claim_C1_checkpoint_projection (s : Store P S M)
    (hs : ReachedNoEvict s) (p : Int) (h1 : -1 ≤ p)
    (h2 : p ≤ (s.events.length : Int) - 1) :
    projectAtIndex s p = foldUpTo s.reducer s.initialState s.events p :=
  projectAtIndex_eq_foldUpTo s (fun _ => (Inv_of_reached hs).1) p

/-- Counter store with default options after two appends (no undo, no
eviction). -/
def plain2 : Store Unit Nat Unit :=
  append (append (new 0 incrRed {}) (mkEv 0)) (mkEv 1)

theorem claim_C1_witness :
    ReachedNoEvict plain2 ∧ -1 ≤ (1 : Int) ∧
    (1 : Int) ≤ (plain2.events.length : Int) - 1 ∧
    projectAtIndex plain2 1
      = foldUpTo plain2.reducer plain2.initialState plain2.events 1 := by
  have hr : ReachedNoEvict plain2 :=
    .upon_append _ _ (.upon_append _ _ (.upon_new _ _ _) (by decide)) (by decide)
  exact ⟨hr, by decide, by decide,
    claim_C1_checkpoint_projection plain2 hr 1 (by decide) (by decide)⟩

/-! ### Eviction-compaction preserves the projected state -/

theorem evict_append_projection (s : Store P S M) (e : BEvent P)
    (hInv : Inv s) (hen : s.enableCheckpoints = true)
    (hcur : s.index = (s.events.length : Int) - 1)
    (hm0 : s.maxEvents ≠ 0) (hfull : s.maxEvents ≤ s.events.length)
    (p : Int) (hp0 : 0 ≤ p) :
    projectAtIndex (append s e) p
      = ((s.events ++ [e]).take (s.events.length / 2 + (p + 1).toNat)).foldl
          s.reducer s.initialState := by
  obtain ⟨hg, hb, hi1, hi2⟩ := hInv
  obtain ⟨ev, idx, cps, md, ini, red, mE, eC, cI⟩ := s
  dsimp only at hg hb hi1 hi2 hen hcur hm0 hfull ⊢
  subst hen
  have hmidlt : ev.length / 2 < ev.length :=
    Nat.div_lt_self (by omega) (by omega)
  have hT : truncateFuture
      (⟨ev, idx, cps, md, ini, red, mE, true, cI⟩ : Store P S M)
      = (⟨ev, idx, cps, md, ini, red, mE, true, cI⟩ : Store P S M) := by
    unfold truncateFuture
    rw [if_neg (by dsimp only; omega)]
  have hc0 : projectAtIndex
      (⟨ev, idx, cps, md, ini, red, mE, true, cI⟩ : Store P S M)
      ((ev.length / 2 : Nat) : Int)
      = (ev.take (ev.length / 2 + 1)).foldl red ini := by
    rw [projectAtIndex_eq_foldUpTo _ (fun _ => hg) _]
    unfold foldUpTo
    have harg : (((ev.length / 2 : Nat) : Int) + 1).toNat = ev.length / 2 + 1 := by
      omega
    rw [harg]
  have hE : enforceMaxEvents
      (⟨ev, idx, cps, md, ini, red, mE, true, cI⟩ : Store P S M)
      = (⟨ev.drop (ev.length / 2),
          ((ev.drop (ev.length / 2)).length : Int) - 1,
          [((0 : Int), projectAtIndex
            (⟨ev, idx, cps, md, ini, red, mE, true, cI⟩ : Store P S M)
            ((ev.length / 2 : Nat) : Int))],
          md, ini, red, mE, true, cI⟩ : Store P S M) := by
    unfold enforceMaxEvents
    rw [if_pos (⟨hm0, hfull⟩ :
      (⟨ev, idx, cps, md, ini, red, mE, true, cI⟩ : Store P S M).maxEvents ≠ 0 ∧
      (⟨ev, idx, cps, md, ini, red, mE, true, cI⟩ : Store P S M).maxEvents ≤
        (⟨ev, idx, cps, md, ini, red, mE, true, cI⟩ : Store P S M).events.length)]
    dsimp only
    rw [if_pos rfl]
  unfold append
  rw [hT, hE]
  have hdrop : (ev.drop (ev.length / 2)).length = ev.length - ev.length / 2 :=
    List.length_drop _ _
  have hghost : ev.drop (ev.length / 2) ++ [e]
      = (ev ++ [e]).drop (ev.length / 2) :=
    (List.drop_append_of_le_length (le_of_lt hmidlt)).symm
  have hproj3 : ∀ r : Int, 0 ≤ r →
      projectAtIndex
        (⟨ev.drop (ev.length / 2) ++ [e],
          ((ev.drop (ev.length / 2)).length : Int) - 1 + 1,
          [((0 : Int), projectAtIndex
            (⟨ev, idx, cps, md, ini, red, mE, true, cI⟩ : Store P S M)
            ((ev.length / 2 : Nat) : Int))],
          md, ini, red, mE, true, cI⟩ : Store P S M) r
        = ((ev ++ [e]).take (ev.length / 2 + (r + 1).toNat)).foldl red ini := by
    intro r hr
    refine projectAtIndex_offset _ (ev ++ [e]) (ev.length / 2) ?_ rfl ?_ ?_ r hr
    · exact hghost
    · intro q hq h0
      rw [List.mem_singleton.mp hq]
      show projectAtIndex
          (⟨ev, idx, cps, md, ini, red, mE, true, cI⟩ : Store P S M)
          ((ev.length / 2 : Nat) : Int)
        = ((ev ++ [e]).take (ev.length / 2 + ((0 : Int) + 1).toNat)).foldl red ini
      rw [hc0]
      have h01 : ((0 : Int) + 1).toNat = 1 := rfl
      rw [h01, List.take_append_of_le_length
        (by omega : ev.length / 2 + 1 ≤ ev.length)]
    · exact ⟨((0 : Int), projectAtIndex
        (⟨ev, idx, cps, md, ini, red, mE, true, cI⟩ : Store P S M)
        ((ev.length / 2 : Nat) : Int)), List.mem_singleton.mpr rfl, rfl⟩
  show projectAtIndex (intervalCheckpoint
    (⟨ev.drop (ev.length / 2) ++ [e],
      ((ev.drop (ev.length / 2)).length : Int) - 1 + 1,
      [((0 : Int), projectAtIndex
        (⟨ev, idx, cps, md, ini, red, mE, true, cI⟩ : Store P S M)
        ((ev.length / 2 : Nat) : Int))],
      md, ini, red, mE, true, cI⟩ : Store P S M)) p
    = ((ev ++ [e]).take (ev.length / 2 + (p + 1).toNat)).foldl red ini
  unfold intervalCheckpoint
  split
  case isFalse => exact hproj3 p hp0
  case isTrue hcond =>
    refine projectAtIndex_offset _ (ev ++ [e]) (ev.length / 2) ?_ rfl ?_ ?_ p hp0
    · exact hghost
    · intro q hq h0
      rcases mem_cpSet hq with hm | hq2
      · rw [List.mem_singleton.mp hm]
        show projectAtIndex
            (⟨ev, idx, cps, md, ini, red, mE, true, cI⟩ : Store P S M)
            ((ev.length / 2 : Nat) : Int)
          = ((ev ++ [e]).take (ev.length / 2 + ((0 : Int) + 1).toNat)).foldl red ini
        rw [hc0]
        have h01 : ((0 : Int) + 1).toNat = 1 := rfl
        rw [h01, List.take_append_of_le_length
          (by omega : ev.length / 2 + 1 ≤ ev.length)]
      · rw [hq2]
        exact hproj3 (((ev.drop (ev.length / 2)).length : Int) - 1 + 1)
          (by omega)
    · refine ⟨((0 : Int), projectAtIndex
        (⟨ev, idx, cps, md, ini, red, mE, true, cI⟩ : Store P S M)
        ((ev.length / 2 : Nat) : Int)), ?_, rfl⟩
      apply cpSet_mem_of_ne (List.mem_singleton.mpr rfl)
      show (0 : Int) ≠ ((ev.drop (ev.length / 2)).length : Int) - 1 + 1
      omega

/-- The spec's eviction example: `maxEvents = 5`, checkpoint options at their
defaults, ten `add 1` events appended against the counter reducer. -/
def c2Store : Store Unit Nat Unit :=
  (List.range 10).foldl (fun st k => append st (mkEv (k : Int)))
    (new 0 incrRed { maxEvents := some 5 })

/-- A counter store with `maxEvents = 5` filled to exactly five events: the
next append triggers eviction. -/
def full5 : Store Unit Nat Unit :=
  (List.range 5).foldl (fun st k => append st (mkEv (k : Int)))
    (new 0 incrRed { maxEvents := some 5 })

/-- Claim C2: the spec's eviction example holds (`getEvents().length <= 5`
and `project() = 10` after ten appends with `maxEvents = 5`), and in general
an eviction-firing append on a well-formed store with checkpoints enabled
preserves exactly the state of the discarded prefix in the seed checkpoint:
every projection at a position at or after the cutover equals the fold of
the full logical history (old log plus the new event) through the
corresponding absolute position. -/
theorem claim_C2_eviction_preserves_state :
    ((getEvents c2Store).length ≤ 5 ∧ project c2Store = 10) ∧
    (∀ (P2 S2 M2 : Type) (s : Store P2 S2 M2) (e : BEvent P2),
      Inv s → s.enableCheckpoints = true →
      s.index = (s.events.length : Int) - 1 →
      s.maxEvents ≠ 0 → s.maxEvents ≤ s.events.length →
      ∀ p : Int, 0 ≤ p →
        projectAtIndex (append s e) p
          = ((s.events ++ [e]).take (s.events.length / 2 + (p + 1).toNat)).foldl
              s.reducer s.initialState) :=
  ⟨⟨by decide, by decide⟩,
    fun _ _ _ s e hInv hen hcur hm0 hfull p hp0 =>
      evict_append_projection s e hInv hen hcur hm0 hfull p hp0⟩

theorem claim_C2_witness :
    (Inv full5 ∧ full5.enableCheckpoints = true ∧
      full5.index = (full5.events.length : Int) - 1 ∧
      full5.maxEvents ≠ 0 ∧ full5.maxEvents ≤ full5.events.length ∧
      (0 : Int) ≤ 0) ∧
    projectAtIndex (append full5 (mkEv 5)) 0
      = ((full5.events ++ [mkEv 5]).take
          (full5.events.length / 2 + ((0 : Int) + 1).toNat)).foldl
          full5.reducer full5.initialState := by
  refine ⟨⟨?_, by decide, by decide, by decide, by decide, by decide⟩, ?_⟩
  · unfold Inv goodCk ckOK ckBounded
    decide
  · exact claim_C2_eviction_preserves_state.2 Unit Nat Unit full5 (mkEv 5)
      (by unfold Inv goodCk ckOK ckBounded; decide) (by decide) (by decide)
      (by decide) (by decide) 0 (by decide)

/-! ### Restore rebuilds a correct checkpoint cache -/

theorem restore_fields (f : Store P S M) (sn : StoreSnapshot P S M) :
    (restore f sn).events = sn.events ∧ (restore f sn).index = sn.index ∧
    (restore f sn).initialState = f.initialState ∧
    (restore f sn).reducer = f.reducer ∧
    (restore f sn).enableCheckpoints = f.enableCheckpoints := by
  unfold restore
  dsimp only
  split
  · split
    · exact ⟨(rebuildLoop_fields _ _ _ _).1, (rebuildLoop_fields _ _ _ _).2.1,
        (rebuildLoop_fields _ _ _ _).2.2.1, (rebuildLoop_fields _ _ _ _).2.2.2.1,
        (rebuildLoop_fields _ _ _ _).2.2.2.2.1⟩
    · exact ⟨rfl, rfl, rfl, rfl, rfl⟩
  · exact ⟨rfl, rfl, rfl, rfl, rfl⟩

theorem restore_good (f : Store P S M) (sn : StoreSnapshot P S M) :
    goodCk (restore f sn) := by
  unfold restore
  dsimp only
  split
  case isTrue hen =>
    split
    case isTrue hint =>
      refine rebuildLoop_good _ _ _ _ hen ?_
      intro q hq
      rw [List.mem_singleton.mp hq]
      exact (foldUpTo_neg _ _ _ _ (by omega)).symm
    case isFalse hint =>
      intro q hq
      rw [List.mem_singleton.mp hq]
      exact (foldUpTo_neg _ _ _ _ (by omega)).symm
  case isFalse hen =>
    intro q hq
    exact absurd hq (List.not_mem_nil q)

/-- Claim C3 (amended): for a source store reachable without eviction,
`snapshot()` followed by `restore()` into a fresh store of the same
configuration yields `project()` equal to the captured state and
`getEvents()` equal to the snapshotted events.  (For a source store on which
eviction has run, the C3 counterexample shows the restored projection
differs from `snapshot.state`, since the seed checkpoint is not
serialized.) -/
theorem claim_C3_snapshot_restore (s : Store P S M) (now : Int)
    (hs : ReachedNoEvict s) :
    project (restore (new s.initialState s.reducer (toRawOptions s))
        (snapshot s now))
      = (snapshot s now).state ∧
    getEvents (restore (new s.initialState s.reducer (toRawOptions s))
        (snapshot s now))
      = (snapshot s now).events := by
  have hInv := Inv_of_reached hs
  constructor
  · have hL := projectAtIndex_eq_foldUpTo
      (restore (new s.initialState s.reducer (toRawOptions s)) (snapshot s now))
      (fun _ => restore_good _ _)
      (restore (new s.initialState s.reducer (toRawOptions s))
        (snapshot s now)).index
    obtain ⟨tev, tidx, tinit, tred, _⟩ :=
      restore_fields (new s.initialState s.reducer (toRawOptions s))
        (snapshot s now)
    show projectAtIndex
        (restore (new s.initialState s.reducer (toRawOptions s))
          (snapshot s now))
        (restore (new s.initialState s.reducer (toRawOptions s))
          (snapshot s now)).index
      = (snapshot s now).state
    rw [hL, tev, tidx, tinit, tred]
    show foldUpTo s.reducer s.initialState s.events s.index = project s
    exact (projectAtIndex_eq_foldUpTo s (fun _ => hInv.1) s.index).symm
  · exact (restore_fields _ _).1

/-- Claim C3, counterexample: `evicted3` is reachable; its snapshot records
state `3` but restoring that snapshot into a fresh store of the same
configuration projects `2` — the seed checkpoint holding the evicted
prefix's state is not part of the snapshot. -/
theorem claim_C3_counterexample :
    Reached evicted3 ∧
    project (restore (new evicted3.initialState evicted3.reducer
        (toRawOptions evicted3)) (snapshot evicted3 0))
      ≠ (snapshot evicted3 0).state :=
  ⟨.upon_append _ _ (.upon_append _ _ (.upon_append _ _ (.upon_new _ _ _))),
    by decide⟩

theorem claim_C3_witness :
    ReachedNoEvict plain2 ∧
    (project (restore (new plain2.initialState plain2.reducer
        (toRawOptions plain2)) (snapshot plain2 0))
        = (snapshot plain2 0).state ∧
      getEvents (restore (new plain2.initialState plain2.reducer
        (toRawOptions plain2)) (snapshot plain2 0))
        = (snapshot plain2 0).events) := by
  have hr : ReachedNoEvict plain2 :=
    .upon_append _ _ (.upon_append _ _ (.upon_new _ _ _) (by decide)) (by decide)
  exact ⟨hr, claim_C3_snapshot_restore plain2 0 hr⟩

/-! ### Appending after an undo -/

/-- The counter store after two appends and one `undo()`: cursor `0`, log
length `2`. -/
def undone2 : Store Unit Nat Unit :=
  (undo plain2).2

/-- Claim C4, counterexample: on the spec's own scenario (two appends, one
undo, then an append) the cursor before the append is `0` and the log
afterwards has `2` events — `index_before_append + 2`, not
`index_before_append + 1` as the claim states. -/
theorem claim_C4_counterexample :
    Reached undone2 ∧
    undone2.index = 0 ∧ undone2.events.length = 2 ∧
    ((append undone2 (mkEv 2)).events.length : Int) ≠ undone2.index + 1 :=
  ⟨.upon_undo _ (.upon_append _ _ (.upon_append _ _ (.upon_new _ _ _))),
    by decide, by decide, by decide⟩

/-- Claim C4 (amended): appending while `index < log.length - 1` first
discards exactly the events after the cursor and every checkpoint positioned
beyond it, then adds the new event; afterwards (when the eviction cap is not
reached) the log is the kept prefix plus the new event, so
`getEvents().length = index_before_append + 2`, `canRedo()` is false, every
remaining checkpoint sits at a position `<= index_before_append + 1` (the
append itself may record one at the new cursor), and every old checkpoint at
a position `<= index_before_append` is kept. -/
theorem claim_C4_truncating_append (s : Store P S M) (e : BEvent P)
    (h0 : -1 ≤ s.index) (h1 : s.index < (s.events.length : Int) - 1)
    (h2 : s.maxEvents = 0 ∨ s.index + 1 < (s.maxEvents : Int)) :
    (append s e).events = s.events.take (s.index + 1).toNat ++ [e] ∧
    ((append s e).events.length : Int) = s.index + 2 ∧
    canRedo (append s e) = false ∧
    (∀ q ∈ (append s e).checkpoints, q.1 ≤ s.index + 1) ∧
    (∀ q ∈ s.checkpoints, q.1 ≤ s.index → q ∈ (append s e).checkpoints) := by
  obtain ⟨ev, idx, cps, md, ini, red, mE, eC, cI⟩ := s
  dsimp only at h0 h1 h2 ⊢
  have hlenT : (ev.take (idx + 1).toNat).length = (idx + 1).toNat :=
    List.length_take_of_le (by omega)
  have hT : truncateFuture
      (⟨ev, idx, cps, md, ini, red, mE, eC, cI⟩ : Store P S M)
      = (⟨ev.take (idx + 1).toNat, idx,
          cps.filter (fun q => !(idx < q.1)), md, ini, red, mE, eC, cI⟩ :
          Store P S M) := by
    unfold truncateFuture
    rw [if_pos h1]
  have hnc : ¬ ((⟨ev.take (idx + 1).toNat, idx,
      cps.filter (fun q => !(idx < q.1)), md, ini, red, mE, eC, cI⟩ :
      Store P S M).maxEvents ≠ 0 ∧
      (⟨ev.take (idx + 1).toNat, idx,
        cps.filter (fun q => !(idx < q.1)), md, ini, red, mE, eC, cI⟩ :
        Store P S M).maxEvents ≤
      (⟨ev.take (idx + 1).toNat, idx,
        cps.filter (fun q => !(idx < q.1)), md, ini, red, mE, eC, cI⟩ :
        Store P S M).events.length) := by
    show ¬ (mE ≠ 0 ∧ mE ≤ (ev.take (idx + 1).toNat).length)
    rw [hlenT]
    rcases h2 with h2 | h2 <;> omega
  unfold append
  rw [hT, enforce_noop _ hnc]
  have hlenP : ((ev.take (idx + 1).toNat ++ [e]).length : Int) = idx + 2 := by
    rw [List.length_append, List.length_singleton, hlenT]
    omega
  have hP : pushEvent
      (⟨ev.take (idx + 1).toNat, idx,
        cps.filter (fun q => !(idx < q.1)), md, ini, red, mE, eC, cI⟩ :
        Store P S M) e
      = (⟨ev.take (idx + 1).toNat ++ [e], idx + 1,
          cps.filter (fun q => !(idx < q.1)), md, ini, red, mE, eC, cI⟩ :
          Store P S M) := rfl
  rw [hP]
  unfold intervalCheckpoint
  dsimp only
  split
  case isTrue hcond =>
    refine ⟨rfl, hlenP, ?_, ?_, ?_⟩
    · show decide ((idx + 1 : Int)
          < ((ev.take (idx + 1).toNat ++ [e]).length : Int) - 1) = false
      rw [decide_eq_false_iff_not, hlenP]
      omega
    · intro q hq
      rcases mem_cpSet hq with hm | hq2
      · have hqle : q.1 ≤ idx := by
          simpa using (List.mem_filter.mp hm).2
        omega
      · have hkey : q.1 = idx + 1 := by rw [hq2]
        omega
    · intro q hq hqle
      refine cpSet_mem_of_ne (List.mem_filter.mpr ⟨hq, ?_⟩)
        (by omega : q.1 ≠ idx + 1)
      simp only [Bool.not_eq_true', decide_eq_false_iff_not]
      omega
  case isFalse hcond =>
    refine ⟨rfl, hlenP, ?_, ?_, ?_⟩
    · show decide ((idx + 1 : Int)
          < ((ev.take (idx + 1).toNat ++ [e]).length : Int) - 1) = false
      rw [decide_eq_false_iff_not, hlenP]
      omega
    · intro q hq
      have hqle : q.1 ≤ idx := by
        simpa using (List.mem_filter.mp hq).2
      omega
    · intro q hq hqle
      refine List.mem_filter.mpr ⟨hq, ?_⟩
      simp only [Bool.not_eq_true', decide_eq_false_iff_not]
      omega

theorem claim_C4_witness :
    (-1 ≤ undone2.index ∧ undone2.index < (undone2.events.length : Int) - 1 ∧
      (undone2.maxEvents = 0 ∨ undone2.index + 1 < (undone2.maxEvents : Int))) ∧
    ((append undone2 (mkEv 2)).events
        = undone2.events.take (undone2.index + 1).toNat ++ [mkEv 2] ∧
      ((append undone2 (mkEv 2)).events.length : Int) = undone2.index + 2 ∧
      canRedo (append undone2 (mkEv 2)) = false ∧
      (∀ q ∈ (append undone2 (mkEv 2)).checkpoints, q.1 ≤ undone2.index + 1) ∧
      (∀ q ∈ undone2.checkpoints, q.1 ≤ undone2.index →
        q ∈ (append undone2 (mkEv 2)).checkpoints)) :=
  ⟨⟨by decide, by decide, Or.inr (by decide)⟩,
    claim_C4_truncating_append undone2 (mkEv 2) (by decide) (by decide)
      (Or.inr (by decide))⟩

/-! ### Exceptional control flow of `append` when the reducer throws

A throwing reducer is modelled by an `Option`-valued reducer: `none` is a
thrown exception.  `FStore` mirrors `Store` with such a reducer, and
`appendF` mirrors `append`'s statement order exactly: object mutations that
have already executed when a projection throws stay in place, as JavaScript
exceptions unwind without rolling back `this`.  The returned `Bool` is
`true` when the exception propagates out of `append`. -/

structure FStore (P S : Type) where
  events : List (BEvent P)
  index : Int
  checkpoints : List (Int × S)
  initialState : S
  freducer : S → BEvent P → Option S
  maxEvents : Nat
  enableCheckpoints : Bool
  checkpointInterval : Nat

/-- `projectAtIndex` with the fallible reducer (`none` = a throw during the
fold). -/
def projectAtIndexF {P S : Type} (s : FStore P S) (targetIndex : Int) :
    Option S :=
  if targetIndex < 0 then some s.initialState
  else if s.enableCheckpoints then
    let best := nearestCk s.initialState targetIndex s.checkpoints
    ((s.events.take (targetIndex + 1).toNat).drop (best.1 + 1).toNat).foldlM
      s.freducer best.2
  else
    (s.events.take (targetIndex + 1).toNat).foldlM s.freducer s.initialState

/-- `project()` with the fallible reducer. -/
def projectF {P S : Type} (s : FStore P S) : Option S :=
  projectAtIndexF s s.index

/-- The constructor for the fallible-reducer store. -/
def newF {P S : Type} (initialState : S) (freducer : S → BEvent P → Option S)
    (opts : StoreOptions) : FStore P S :=
  { events := []
    index := -1
    checkpoints := if opts.enableCheckpoints.getD false
      then [(-1, initialState)] else []
    initialState := initialState
    freducer := freducer
    maxEvents := opts.maxEvents.getD 10000
    enableCheckpoints := opts.enableCheckpoints.getD true
    checkpointInterval := opts.checkpointInterval.getD 100 }

/-- `append(payload)` under the fallible reducer, with the source's
statement order: truncate, evict (projecting at the midpoint), push the
event and advance the cursor, record the interval checkpoint (projecting),
project for the notification.  The first component is `true` when the
reducer threw; the second is the store as left behind at that point. -/
def appendF {P S : Type} (s : FStore P S) (e : BEvent P) :
    Bool × FStore P S :=
  let s1 := if s.index < (s.events.length : Int) - 1 then
      { s with
        events := s.events.take (s.index + 1).toNat
        checkpoints := s.checkpoints.filter (fun q => !(s.index < q.1)) }
    else s
  let ev2 : Bool × FStore P S :=
    if s1.maxEvents ≠ 0 ∧ s1.maxEvents ≤ s1.events.length then
      let midpoint := s1.events.length / 2
      if s1.enableCheckpoints then
        match projectAtIndexF s1 (midpoint : Int) with
        | none => (true, s1)
        | some v =>
          let s1a := { s1 with checkpoints := [((0 : Int), v)] }
          (false, { s1a with
            events := s1a.events.drop midpoint
            index := ((s1a.events.drop midpoint).length : Int) - 1 })
      else
        (false, { s1 with
          events := s1.events.drop midpoint
          index := ((s1.events.drop midpoint).length : Int) - 1 })
    else (false, s1)
  match ev2 with
  | (true, sBad) => (true, sBad)
  | (false, s2) =>
    let s3 := { s2 with events := s2.events ++ [e], index := s2.index + 1 }
    if s3.enableCheckpoints ∧ s3.checkpointInterval ≠ 0 ∧
        Int.tmod s3.index (s3.checkpointInterval : Int) = 0 then
      match projectF s3 with
      | none => (true, s3)
      | some v =>
        let s4 := { s3 with checkpoints := cpSet s3.checkpoints s3.index v }
        match projectF s4 with
        | none => (true, s4)
        | some _ => (false, s4)
    else
      match projectF s3 with
      | none => (true, s3)
      | some _ => (false, s3)

/-- Counter reducer that throws on events of type `boom`. -/
def faultRed : Nat → BEvent Unit → Option Nat :=
  fun n e => if e.type = "boom" then none else some (n + 1)

/-- An event the fault reducer throws on. -/
def boomEv : BEvent Unit :=
  { id := "", timestamp := 1, type := "boom", payload := () }

/-- The fallible counter store after one successful append. -/
def fBase : FStore Unit Nat :=
  (appendF (newF 0 faultRed {}) (mkEv 0)).2

/-- Claim C5: the code commits the log mutation before the reducer is first
applied to the new event.  Appending a `boom` event to `fBase` makes the
reducer throw (the failure propagates synchronously out of `append`), yet
the store left behind holds the new event and the advanced cursor — its
prior observable state is NOT unaffected, contradicting the claim and the
spec's own MUST in the error-handling section. -/
theorem claim_C5_reducer_fault_mutates :
    (appendF fBase boomEv).1 = true ∧
    (appendF fBase boomEv).2.events = fBase.events ++ [boomEv] ∧
    (appendF fBase boomEv).2.index = fBase.index + 1 ∧
    fBase.events ≠ fBase.events ++ [boomEv] := by
  refine ⟨?_, ?_, ?_, ?_⟩ <;> decide

/-! ### Presence of the checkpoint at position `-1` -/

/-- The checkpoint map holds the initial-state entry at position `-1`. -/
def hasInitCk (s : Store P S M) : Prop :=
  ((-1 : Int), s.initialState) ∈ s.checkpoints

theorem hasInit_new (init : S) (red : S → BEvent P → S) (opts : StoreOptions)
    (h : opts.enableCheckpoints = some true) :
    hasInitCk (new (P := P) (M := M) init red opts) := by
  unfold hasInitCk new
  dsimp only
  rw [h]
  exact List.mem_singleton.mpr rfl

theorem hasInit_truncate (s : Store P S M) (h : hasInitCk s)
    (h0 : -1 ≤ s.index) : hasInitCk (truncateFuture s) := by
  unfold hasInitCk at h ⊢
  unfold truncateFuture
  split
  · dsimp only
    refine List.mem_filter.mpr ⟨h, ?_⟩
    simp only [Bool.not_eq_true', decide_eq_false_iff_not]
    omega
  · exact h

theorem hasInit_append (s : Store P S M) (e : BEvent P) (h : hasInitCk s)
    (h0 : -1 ≤ s.index) (hne : ¬ evictionFires s) :
    hasInitCk (append s e) := by
  have hT := hasInit_truncate s h h0
  unfold append
  rw [enforce_noop _ hne]
  unfold hasInitCk at hT ⊢
  unfold intervalCheckpoint
  split
  case isTrue hc =>
    refine cpSet_mem_of_ne hT ?_
    show (-1 : Int) ≠ (pushEvent (truncateFuture s) e).index
    have hx : (pushEvent (truncateFuture s) e).index = s.index + 1 := by
      show (truncateFuture s).index + 1 = s.index + 1
      rw [truncate_index]
    omega
  case isFalse => exact hT

theorem hasInit_clear (s : Store P S M) (hen : s.enableCheckpoints = true) :
    hasInitCk (clear s) := by
  unfold hasInitCk clear
  dsimp only
  rw [hen]
  exact List.mem_singleton.mpr rfl

theorem hasInit_restore (s : Store P S M) (sn : StoreSnapshot P S M)
    (hen : s.enableCheckpoints = true) : hasInitCk (restore s sn) := by
  unfold hasInitCk restore
  dsimp only
  rw [hen, if_pos rfl]
  split
  case isTrue hint =>
    rw [(rebuildLoop_fields _ _ _ _).2.2.1]
    apply rebuildLoop_hasInit
    · have h2 : s.checkpointInterval ≠ 0 := hint
      omega
    · exact List.mem_singleton.mpr rfl
  case isFalse hint =>
    exact List.mem_singleton.mpr rfl

theorem hasInit_fork (s : Store P S M) (hen : s.enableCheckpoints = true) :
    hasInitCk (fork s) := by
  unfold hasInitCk fork
  dsimp only
  split
  case isTrue hc =>
    rw [(rebuildLoop_fields _ _ _ _).2.2.1]
    apply rebuildLoop_hasInit
    · have h2 : s.checkpointInterval ≠ 0 := hc.2
      omega
    · show ((-1 : Int), s.initialState) ∈ cpSet
        (new (P := P) (M := M) s.initialState s.reducer
          (toRawOptions s)).checkpoints (-1) s.initialState
      exact cpSet_mem_self _ _ _
  case isFalse hc =>
    show ((-1 : Int), s.initialState) ∈
      (new (P := P) (M := M) s.initialState s.reducer (toRawOptions s)).checkpoints
    unfold new
    dsimp only
    rw [show (toRawOptions s).enableCheckpoints.getD false = true from hen]
    exact List.mem_singleton.mpr rfl

/-- Claim C6, counterexample: a store constructed with default options has
checkpointing enabled (the defaulted `enableCheckpoints` is true) yet its
checkpoint map is EMPTY — the constructor consults the raw options before
the defaults are merged, so no `-1` checkpoint is recorded. -/
theorem claim_C6_counterexample :
    (new (P := Unit) (M := Unit) (0 : Nat) incrRed {}).enableCheckpoints = true ∧
    (new (P := Unit) (M := Unit) (0 : Nat) incrRed {}).checkpoints = [] :=
  ⟨rfl, rfl⟩

/-- Claim C6 (amended): the `-1` checkpoint holding the initial state is
present after construction only when `enableCheckpoints` is explicitly
`true` in the raw constructor options; it is preserved by appends that do
not trigger eviction and by undo/redo/navigate/navigateToTime, and it is
re-established by clear, restore and fork whenever (defaulted) checkpointing
is enabled.  (An eviction-firing append clears the whole map and leaves only
the seed checkpoint at position `0`, and a default-options construction has
no `-1` checkpoint at all, as the counterexample shows; projection treats
the missing entry as the initial state.) -/
theorem claim_C6_initial_checkpoint :
    (∀ (P2 S2 M2 : Type) (init : S2) (red : S2 → BEvent P2 → S2)
        (opts : StoreOptions), opts.enableCheckpoints = some true →
        hasInitCk (new (P := P2) (M := M2) init red opts)) ∧
    (∀ (P2 S2 M2 : Type) (s : Store P2 S2 M2) (e : BEvent P2),
        hasInitCk s → -1 ≤ s.index → ¬ evictionFires s →
        hasInitCk (append s e)) ∧
    (∀ (P2 S2 M2 : Type) (s : Store P2 S2 M2),
        hasInitCk s → hasInitCk (undo s).2 ∧ hasInitCk (redo s).2) ∧
    (∀ (P2 S2 M2 : Type) (s : Store P2 S2 M2) (i : Int),
        hasInitCk s → hasInitCk (navigate s i)) ∧
    (∀ (P2 S2 M2 : Type) (s : Store P2 S2 M2) (t : Int),
        hasInitCk s → hasInitCk (navigateToTime s t)) ∧
    (∀ (P2 S2 M2 : Type) (s : Store P2 S2 M2),
        s.enableCheckpoints = true → hasInitCk (clear s)) ∧
    (∀ (P2 S2 M2 : Type) (s : Store P2 S2 M2) (sn : StoreSnapshot P2 S2 M2),
        s.enableCheckpoints = true → hasInitCk (restore s sn)) ∧
    (∀ (P2 S2 M2 : Type) (s : Store P2 S2 M2),
        s.enableCheckpoints = true → hasInitCk (fork s)) := by
  refine ⟨?_, ?_, ?_, ?_, ?_, ?_, ?_, ?_⟩
  · intro _ _ _ init red opts h
    exact hasInit_new init red opts h
  · intro _ _ _ s e h h0 hne
    exact hasInit_append s e h h0 hne
  · intro _ _ _ s h
    constructor
    · unfold undo; split
      · exact h
      · exact h
    · unfold redo; split
      · exact h
      · exact h
  · intro _ _ _ s i h
    exact h
  · intro _ _ _ s t h
    exact h
  · intro _ _ _ s hen
    exact hasInit_clear s hen
  · intro _ _ _ s sn hen
    exact hasInit_restore s sn hen
  · intro _ _ _ s hen
    exact hasInit_fork s hen

theorem claim_C6_witness :
    ({ enableCheckpoints := some true } : StoreOptions).enableCheckpoints
        = some true ∧
    hasInitCk (new (P := Unit) (M := Unit) (0 : Nat) incrRed
      { enableCheckpoints := some true }) :=
  ⟨rfl, claim_C6_initial_checkpoint.1 Unit Nat Unit 0 incrRed
    { enableCheckpoints := some true } rfl⟩

/-! ### The time-navigation scan -/

theorem tw_length_le {α : Type} (pr : α → Bool) :
    ∀ l : List α, (l.takeWhile pr).length ≤ l.length := by
  intro l
  induction l with
  | nil => simp
  | cons x l ih =>
    rw [List.takeWhile_cons]
    split
    · simpa using ih
    · simp

theorem scanToTime_eq (t : Int) :
    ∀ (l : List (BEvent P)) (i : Int),
      scanToTime t l i (i - 1)
        = i + ((l.takeWhile (fun x => decide (x.timestamp ≤ t))).length : Int)
            - 1 := by
  intro l
  induction l with
  | nil => intro i; simp [scanToTime]
  | cons e rest ih =>
    intro i
    rw [scanToTime, List.takeWhile_cons]
    by_cases hc : e.timestamp ≤ t
    · rw [if_pos hc, if_pos (by simpa using hc)]
      have hi := ih (i + 1)
      rw [show i + 1 - 1 = i by ring] at hi
      rw [hi, List.length_cons]
      push_cast
      ring
    · rw [if_neg hc, if_neg (by simpa using hc)]
      simp

theorem ts_le_of_lt_tw (t : Int) :
    ∀ (l : List (BEvent P)) (i : Nat) (h : i < l.length),
      i < (l.takeWhile (fun x => decide (x.timestamp ≤ t))).length →
      (l.get ⟨i, h⟩).timestamp ≤ t := by
  intro l
  induction l with
  | nil => intro i h; simp at h
  | cons e rest ih =>
    intro i h hlt
    rw [List.takeWhile_cons] at hlt
    by_cases hc : decide (e.timestamp ≤ t) = true
    · rw [if_pos hc] at hlt
      cases i with
      | zero => simpa using hc
      | succ j =>
        exact ih j (by simpa using h) (by simpa using hlt)
    · rw [if_neg hc] at hlt
      simp at hlt

theorem lt_tw_of_ts_le (t : Int) :
    ∀ (l : List (BEvent P)),
      l.Pairwise (fun a b => a.timestamp ≤ b.timestamp) →
      ∀ (i : Nat) (h : i < l.length),
        (l.get ⟨i, h⟩).timestamp ≤ t →
        i < (l.takeWhile (fun x => decide (x.timestamp ≤ t))).length := by
  intro l
  induction l with
  | nil => intro _ i h; simp at h
  | cons e rest ih =>
    intro hp i h hts
    obtain ⟨hhead, htail⟩ := List.pairwise_cons.mp hp
    rw [List.takeWhile_cons]
    cases i with
    | zero =>
      have he : e.timestamp ≤ t := by simpa using hts
      rw [if_pos (by simpa using he)]
      simp
    | succ j =>
      have hj : j < rest.length := by simpa using h
      have hjt : (rest.get ⟨j, hj⟩).timestamp ≤ t := by simpa using hts
      have he : e.timestamp ≤ t :=
        le_trans (hhead _ (List.get_mem rest j hj)) hjt
      rw [if_pos (by simpa using he)]
      simpa using ih htail j hj hjt

theorem navigateToTime_index (s : Store P S M) (t : Int) :
    (navigateToTime s t).index
      = ((s.events.takeWhile
          (fun x => decide (x.timestamp ≤ t))).length : Int) - 1 := by
  unfold navigateToTime navigate
  dsimp only
  have hscan : scanToTime t s.events 0 (-1)
      = ((s.events.takeWhile
          (fun x => decide (x.timestamp ≤ t))).length : Int) - 1 := by
    have hz := scanToTime_eq t s.events 0
    rw [show (0 : Int) - 1 = -1 by ring] at hz
    rw [hz]
    ring
  rw [hscan]
  have h1 := tw_length_le (fun x => decide (x.timestamp ≤ t)) s.events
  omega

/-- The non-monotone store: timestamps `5, 20, 10` in log order. -/
def nonMono3 : Store Unit Nat Unit :=
  append (append (append (new 0 incrRed {}) (mkEv 5)) (mkEv 20)) (mkEv 10)

/-- Claim C7, counterexample: on the reachable store with timestamps
`5, 20, 10`, `navigateToTime(10)` stops its scan at the first timestamp
exceeding `10` and moves the cursor to `0`, even though position `2` — the
greatest position, and the last in log order, with timestamp `<= 10` — also
qualifies. -/
theorem claim_C7_counterexample :
    Reached nonMono3 ∧
    (navigateToTime nonMono3 10).index = 0 ∧
    (∃ h : 2 < nonMono3.events.length,
      (nonMono3.events.get ⟨2, h⟩).timestamp ≤ 10) ∧
    nonMono3.events.length = 3 :=
  ⟨.upon_append _ _ (.upon_append _ _ (.upon_append _ _ (.upon_new _ _ _))),
    by decide, ⟨by decide, by decide⟩, by decide⟩

/-- Claim C7 (amended): `navigateToTime(t)` moves the cursor to `L - 1`,
where `L` is the length of the longest log PREFIX all of whose events have
timestamp `<= t` (the scan breaks at the first event with timestamp `> t`);
the log itself is unchanged; every position at or below the resulting cursor
has timestamp `<= t`; and when timestamps are non-decreasing in log order
the cursor is at the greatest position with timestamp `<= t` (or `-1` if
none).  For non-monotone timestamps the result can be strictly earlier than
the last event in log order with timestamp `<= t`, as the counterexample
shows. -/
theorem claim_C7_navigate_to_time (s : Store P S M) (t : Int) :
    ((navigateToTime s t).index
        = ((s.events.takeWhile
            (fun x => decide (x.timestamp ≤ t))).length : Int) - 1) ∧
    ((navigateToTime s t).events = s.events) ∧
    (∀ (i : Nat) (h : i < s.events.length),
        (i : Int) ≤ (navigateToTime s t).index →
        (s.events.get ⟨i, h⟩).timestamp ≤ t) ∧
    (s.events.Pairwise (fun a b => a.timestamp ≤ b.timestamp) →
      ∀ (i : Nat) (h : i < s.events.length),
        (s.events.get ⟨i, h⟩).timestamp ≤ t →
        (i : Int) ≤ (navigateToTime s t).index) := by
  refine ⟨navigateToTime_index s t, rfl, ?_, ?_⟩
  · intro i h hle
    rw [navigateToTime_index s t] at hle
    exact ts_le_of_lt_tw t s.events i h (by omega)
  · intro hp i h hts
    rw [navigateToTime_index s t]
    have hlt := lt_tw_of_ts_le t s.events hp i h hts
    omega

theorem claim_C7_witness :
    (plain2.events.Pairwise (fun a b => a.timestamp ≤ b.timestamp) ∧
      1 < plain2.events.length) ∧
    (1 : Int) ≤ (navigateToTime plain2 1).index := by
  refine ⟨⟨by decide, by decide⟩, ?_⟩
  exact (claim_C7_navigate_to_time plain2 1).2.2.2 (by decide) 1 (by decide)
    (by decide)

/-! ### Runtime behaviour of `restore` on malformed snapshots

At runtime a snapshot is an untyped object; `RawSnapshot` gives every field
an `Option`, `none` modelling an absent field (JavaScript `undefined`).
`restoreRaw` mirrors `restore`'s statements under JavaScript semantics:
spreading `undefined` (`[...snapshot.events]`) throws a TypeError before any
field of the store has been assigned, but a missing `index` is assigned as
`undefined` with no check — every comparison `i <= undefined` in the rebuild
loop is false, so the loop body never runs.  `RestoredView` records the
store fields `restore` wrote (`indexU = none` is the `undefined` cursor);
`Except.error` is the thrown TypeError, with the store untouched. -/

structure RawSnapshot (P S M : Type) where
  events : Option (List (BEvent P))
  index : Option Int
  state : Option S
  timestamp : Option Int
  metadata : Option (List (String × M))

structure RestoredView (P S M : Type) where
  events : List (BEvent P)
  indexU : Option Int
  metadata : List (String × M)
  checkpoints : List (Int × S)
  deriving DecidableEq

/-- `restore(snapshot)` on a raw runtime snapshot. -/
def restoreRaw (s : Store P S M) (sn : RawSnapshot P S M) :
    Except Unit (RestoredView P S M) :=
  match sn.events with
  | none => Except.error ()
  | some evs =>
    let md := sn.metadata.getD []
    if s.enableCheckpoints then
      match sn.index with
      | none => Except.ok
          { events := evs
            indexU := none
            metadata := md
            checkpoints := [((-1 : Int), s.initialState)] }
      | some n =>
        if s.checkpointInterval ≠ 0 then
          let t := rebuildLoop s.checkpointInterval (n.toNat + 1)
            ((s.checkpointInterval : Int) - 1)
            { s with
              events := evs
              index := n
              metadata := md
              checkpoints := [((-1 : Int), s.initialState)] }
          Except.ok
            { events := t.events
              indexU := some t.index
              metadata := t.metadata
              checkpoints := t.checkpoints }
        else
          Except.ok
            { events := evs
              indexU := some n
              metadata := md
              checkpoints := [((-1 : Int), s.initialState)] }
    else
      Except.ok
        { events := evs
          indexU := sn.index
          metadata := md
          checkpoints := [] }

/-- A malformed snapshot: the `index` field is missing. -/
def badSnap : RawSnapshot Unit Nat Unit :=
  { events := some []
    index := none
    state := some 0
    timestamp := some 0
    metadata := none }

/-- Claim C8: `restore` performs no runtime validation.  Restoring a
snapshot whose `index` field is missing into the (reachable, nonempty) store
`plain2` does NOT fail fast: it completes, replacing the events, metadata
and checkpoints and leaving the cursor `undefined` — a partially-restored,
corrupted store — whereas the claim requires the restore to be rejected with
the store's events, index, metadata and checkpoints unchanged. -/
theorem claim_C8_restore_no_validation :
    Reached plain2 ∧
    restoreRaw plain2 badSnap
      = Except.ok
          { events := []
            indexU := none
            metadata := []
            checkpoints := [((-1 : Int), 0)] } ∧
    plain2.events ≠ [] :=
  ⟨.upon_append _ _ (.upon_append _ _ (.upon_new _ _ _)), by rfl, by decide⟩

/-! ### Undo followed by redo -/

/-- Claim C9: for every store with a valid cursor and `index >= 0`, `undo()`
succeeds, the following `redo()` succeeds, and the projection after the
redo equals the projection before the undo. -/
theorem claim_C9_undo_redo (s : Store P S M)
    (h0 : 0 ≤ s.index) (h1 : s.index ≤ (s.events.length : Int) - 1) :
    (undo s).1 = true ∧ (redo (undo s).2).1 = true ∧
    project (redo (undo s).2).2 = project s := by
  obtain ⟨ev, idx, cps, md, ini, red, mE, eC, cI⟩ := s
  dsimp only at h0 h1
  have hu : undo (⟨ev, idx, cps, md, ini, red, mE, eC, cI⟩ : Store P S M)
      = (true, (⟨ev, idx - 1, cps, md, ini, red, mE, eC, cI⟩ : Store P S M)) := by
    unfold undo
    rw [if_pos h0]
  have hr : redo (⟨ev, idx - 1, cps, md, ini, red, mE, eC, cI⟩ : Store P S M)
      = (true, (⟨ev, idx - 1 + 1, cps, md, ini, red, mE, eC, cI⟩ : Store P S M)) := by
    unfold redo
    rw [if_pos (by dsimp only; omega)]
  rw [hu]
  dsimp only
  rw [hr]
  dsimp only
  refine ⟨rfl, rfl, ?_⟩
  have hidx : idx - 1 + 1 = idx := by ring
  rw [hidx]

theorem claim_C9_witness :
    (0 ≤ plain2.index ∧ plain2.index ≤ (plain2.events.length : Int) - 1) ∧
    ((undo plain2).1 = true ∧ (redo (undo plain2).2).1 = true ∧
      project (redo (undo plain2).2).2 = project plain2) :=
  ⟨⟨by decide, by decide⟩,
    claim_C9_undo_redo plain2 (by decide) (by decide)⟩

/-! ### Clear resets the observables -/

/-- Claim C10: after `clear()` the store is observably reset: no events,
cursor at `-1`, projection equal to the initial state, neither undo nor redo
possible, and all metadata removed. -/
theorem claim_C10_clear_resets (s : Store P S M) :
    getEvents (clear s) = [] ∧ getIndex (clear s) = -1 ∧
    project (clear s) = s.initialState ∧
    canUndo (clear s) = false ∧ canRedo (clear s) = false ∧
    (clear s).metadata = [] := by
  unfold clear
  dsimp only
  split
  · exact ⟨rfl, rfl, rfl, rfl, rfl, rfl⟩
  · exact ⟨rfl, rfl, rfl, rfl, rfl, rfl⟩

end Terminals
